import Mathlib

/-!
Shallow embedding of `src/main.rs` of `axidraw-over-http`: a gRPC service
relaying text commands to an AxiDraw pen plotter over a serial port.

The embedding models:
* the validation and enqueueing done per message of the `stream` RPC
  (main.rs lines 42-69),
* the `clear`, `pause`, `resume` and `get_state` RPCs (lines 71-99),
* the consumer thread's inner drain loop (lines 133-148),
* the serial exchange `send_to_serial_and_wait_for_ok` (lines 201-219),
* device acquisition `get_serial_port` (lines 166-199),
* the lock-acquisition event traces of the handlers and of one consumer
  inner-loop iteration, to reason about which locks are live during the
  blocking serial round trip.

Rust `String`s become Lean `String`s; the `VecDeque` command buffer becomes a
`List String` whose head is the queue front; the tokio mutexes disappear and
concurrency is modelled by interleaving atomic operations (each operation of
the trace semantics corresponds to one critical section of the source) and,
for the lock-scope claims, by explicit acquire/release event traces.
-/

namespace Axidraw

/-- Run state of the service, from the `RunningStatus` protobuf enum used by
main.rs (values `Running` and `Paused`). -/
inductive RunningStatus
  | Running
  | Paused
deriving DecidableEq, Repr

/-- Control message sent over the unbounded channel to the consumer thread
(main.rs lines 30-32): the only variant is `CheckBuffer`. -/
inductive ControlMessage
  | CheckBuffer
deriving DecidableEq, Repr

/-- gRPC status as used by the service; the only error the service builds is
`Status::invalid_argument(msg)` (main.rs line 52). -/
inductive Status
  | invalidArgument (msg : String)
deriving DecidableEq, Repr

/-- Validation applied to each streamed command (main.rs line 51):
`command.is_empty() || command.contains('\r') || command.contains('\n')`.
Stated over the character list of the string. -/
def invalidCommand (command : String) : Bool :=
  command.data.isEmpty || command.data.contains '\r' || command.data.contains '\n'

/-- The mutable state shared by the request handlers: the `VecDeque<String>`
command buffer (head of the list is the queue front) and the `RunningStatus`
(main.rs lines 34-38). -/
structure ServiceState where
  commandBuffer : List String
  runningStatus : RunningStatus
deriving DecidableEq, Repr

/-- One iteration of the `while let` loop of `stream` (main.rs lines 48-66):
validate the message; on failure return `invalid_argument`; on success
`push_back` the command and, if the running status read afterwards is
`Running`, send one `CheckBuffer` control message. -/
def streamStep (st : ServiceState) (command : String) :
    Except Status (ServiceState × List ControlMessage) :=
  if invalidCommand command then
    Except.error (Status.invalidArgument "Invalid command")
  else
    let st' : ServiceState := ⟨st.commandBuffer ++ [command], st.runningStatus⟩
    Except.ok
      (st', if st'.runningStatus = RunningStatus.Running then
              [ControlMessage.CheckBuffer]
            else [])

deriving instance DecidableEq for Except

/-- Result of running a whole `stream` call: the final shared state, the
control messages sent, and the returned gRPC result. -/
structure StreamOutcome where
  state : ServiceState
  tokens : List ControlMessage
  result : Except Status Unit
deriving DecidableEq, Repr

/-- The `stream` RPC body (main.rs lines 42-69) over the list of messages of
the request stream: process messages in order with `streamStep`; the first
invalid message aborts the call with its error, leaving the state as it was
after the preceding messages; if all messages pass, return `Ok(Empty)`. -/
def stream (st : ServiceState) : List String → StreamOutcome
  | [] => ⟨st, [], Except.ok ()⟩
  | command :: rest =>
    match streamStep st command with
    | Except.error e => ⟨st, [], Except.error e⟩
    | Except.ok (st', tokens) =>
      ⟨(stream st' rest).state, tokens ++ (stream st' rest).tokens,
       (stream st' rest).result⟩

/-- The `clear` RPC (main.rs lines 71-75): empty the command buffer, touching
nothing else. -/
def clear (st : ServiceState) : ServiceState :=
  ⟨[], st.runningStatus⟩

/-- The `pause` RPC (main.rs lines 77-81): set the running status to `Paused`;
no control message is sent. The second component is the list of control
messages emitted. -/
def pause (st : ServiceState) : ServiceState × List ControlMessage :=
  (⟨st.commandBuffer, RunningStatus.Paused⟩, [])

/-- The `resume` RPC (main.rs lines 83-90): set the running status to
`Running`, then send exactly one `CheckBuffer` control message. -/
def resume (st : ServiceState) : ServiceState × List ControlMessage :=
  (⟨st.commandBuffer, RunningStatus.Running⟩, [ControlMessage.CheckBuffer])

/-- The reply of `get_state` (the `BufferState` protobuf message): current
queue length and running status. -/
structure BufferState where
  bufferLength : Nat
  runningStatus : RunningStatus
deriving DecidableEq, Repr

/-- The `get_state` RPC (main.rs lines 92-99): report the buffer length and
the running status. -/
def get_state (st : ServiceState) : BufferState :=
  ⟨st.commandBuffer.length, st.runningStatus⟩

/-- The consumer thread's inner loop (main.rs lines 137-146), run once per
received `CheckBuffer` message. The first argument is the sequence of running
statuses the loop observes when it locks the state, one per iteration (the
status may be changed concurrently between iterations); the second is the
command buffer. Each iteration breaks if the observed status is not `Running`
or the buffer is empty, and otherwise pops the front command and performs the
serial exchange for it. Returns the commands handed to the serial exchange, in
order, and the remaining buffer. -/
def checkBuffer : List RunningStatus → List String → List String × List String
  | [], buffer => ([], buffer)
  | status :: obs, buffer =>
    if status ≠ RunningStatus.Running ∨ buffer = [] then ([], buffer)
    else
      (buffer.take 1 ++ (checkBuffer obs buffer.tail).1,
       (checkBuffer obs buffer.tail).2)

/-- An atomic operation of the whole system, i.e. one critical section of the
source: one message of a `stream` call (lines 48-66), one popping iteration of
the consumer inner loop (lines 137-146), or one of the `clear` / `pause` /
`resume` handlers. Arbitrary interleavings of these model the concurrent
executions linearized by the two mutexes. -/
inductive Op
  | submit (command : String)
  | dispatchOne
  | clearOp
  | pauseOp
  | resumeOp
deriving DecidableEq, Repr

/-- Global state for the trace semantics: the shared buffer and status,
plus history variables: `sent` is the sequence of commands handed to
`send_to_serial_and_wait_for_ok` in order, `enqueued` the sequence of
successfully enqueued commands in order, and `cleared` the total number of
entries dropped by `clear` calls. -/
structure SysState where
  commandBuffer : List String
  runningStatus : RunningStatus
  sent : List String
  enqueued : List String
  cleared : Nat
deriving DecidableEq, Repr

/-- Effect of one atomic operation on the global state, from the source:
a submitted command is appended iff it passes validation (line 51-59); a
consumer iteration pops the front iff the status is `Running` and the buffer
is nonempty (lines 141-145); `clear` drops all entries (line 72); `pause` and
`resume` write the status (lines 78, 84). -/
def stepOp (s : SysState) : Op → SysState
  | Op.submit command =>
    if invalidCommand command then s
    else ⟨s.commandBuffer ++ [command], s.runningStatus, s.sent,
          s.enqueued ++ [command], s.cleared⟩
  | Op.dispatchOne =>
    if s.runningStatus ≠ RunningStatus.Running ∨ s.commandBuffer = [] then s
    else
      match s.commandBuffer with
      | [] => s
      | c :: rest => ⟨rest, s.runningStatus, s.sent ++ [c], s.enqueued, s.cleared⟩
  | Op.clearOp =>
    ⟨[], s.runningStatus, s.sent, s.enqueued, s.cleared + s.commandBuffer.length⟩
  | Op.pauseOp =>
    ⟨s.commandBuffer, RunningStatus.Paused, s.sent, s.enqueued, s.cleared⟩
  | Op.resumeOp =>
    ⟨s.commandBuffer, RunningStatus.Running, s.sent, s.enqueued, s.cleared⟩

/-- Run a sequence of atomic operations from a state. -/
def runOps (s : SysState) (ops : List Op) : SysState :=
  ops.foldl stepOp s

/-- The initial state of the process (main.rs lines 127-128): empty buffer,
status `Running`, empty history. -/
def initState : SysState :=
  ⟨[], RunningStatus.Running, [], [], 0⟩

/-- View of the global state as the handler-visible shared state. -/
def SysState.toService (s : SysState) : ServiceState :=
  ⟨s.commandBuffer, s.runningStatus⟩

/-- The running status an operation leaves, given the status before it:
only `pause` and `resume` write it. -/
def statusUpdate (r : RunningStatus) (op : Op) : RunningStatus :=
  match op with
  | Op.pauseOp => RunningStatus.Paused
  | Op.resumeOp => RunningStatus.Running
  | _ => r

/-- The status after a sequence of operations from the initial `Running`
status: the effect of the most recent `pause` / `resume`, `Running` if none. -/
def lastRunStatus (ops : List Op) : RunningStatus :=
  ops.foldl statusUpdate RunningStatus.Running

/-- One call arriving at the service from the network boundary, at the
granularity relevant to the wake protocol: one message of a `stream` call, or
one of the `clear` / `pause` / `resume` RPCs. -/
inductive ServiceOp
  | streamMsg (command : String)
  | clearCall
  | pauseCall
  | resumeCall
deriving DecidableEq, Repr

/-- Effect of one service call on the shared state, together with the control
messages it sends: a failing `stream` message leaves the state unchanged and
sends nothing; `clear` sends nothing. -/
def serviceStep (st : ServiceState) : ServiceOp → ServiceState × List ControlMessage
  | ServiceOp.streamMsg command =>
    match streamStep st command with
    | Except.ok r => r
    | Except.error _ => (st, [])
  | ServiceOp.clearCall => (clear st, [])
  | ServiceOp.pauseCall => pause st
  | ServiceOp.resumeCall => resume st

/-- One attempt of the reader's `lines()` iterator: `Except.error ()` models a
read that failed (e.g. timed out) before a complete line, `Except.ok line` a
complete newline-delimited line. -/
abbrev ReadAttempt := Except Unit String

/-- The response loop of `send_to_serial_and_wait_for_ok` (main.rs lines
212-216): take read attempts in order until the first complete line, which is
the response; also count how many attempts were consumed. `none` models an
exhausted reader (in the source, `next()` returning `None` panics). -/
def firstLine : List ReadAttempt → Option (String × Nat)
  | [] => none
  | Except.ok response :: _ => some (response, 1)
  | Except.error _ :: rest =>
    (firstLine rest).map (fun p => (p.1, p.2 + 1))

/-- Observable effect of one serial exchange: the characters written to the
device, the number of read attempts consumed, and the response line. -/
structure SerialExchange where
  written : List Char
  readsConsumed : Nat
  response : String
deriving DecidableEq, Repr

/-- `send_to_serial_and_wait_for_ok` (main.rs lines 201-219): write the
command followed by a single carriage return and flush, then loop over read
attempts until the first complete line, which is the response. The device side
is modelled by the list of read attempts it would yield. -/
def send_to_serial_and_wait_for_ok (command : String) (reads : List ReadAttempt) :
    Option SerialExchange :=
  (firstLine reads).map (fun p => ⟨(command ++ "\r").data, p.2, p.1⟩)

/-- Type of an enumerated serial port, as far as `port_filter` inspects it:
a USB port carries its optional product string (`usb_port_info.product`); all
non-USB port types are collapsed into `nonUsbPort` since the filter only
distinguishes USB from non-USB. -/
inductive SerialPortType
  | usbPort (product : Option String)
  | nonUsbPort
deriving DecidableEq, Repr

/-- An enumerated serial port: its name (path) and type. -/
structure SerialPortInfo where
  portName : String
  portType : SerialPortType
deriving DecidableEq, Repr

/-- Substring test on character lists: some (contiguous) run of `hay` equals
`needle`. Models Rust `str::contains(&str)`. -/
def listHasSub (needle : List Char) : List Char → Bool
  | [] => needle.isEmpty
  | c :: rest => needle.isPrefixOf (c :: rest) || listHasSub needle rest

/-- Rust `str::contains(&str)`: `pat` occurs as a contiguous substring of
`s`. -/
def containsSub (s pat : String) : Bool :=
  listHasSub pat.data s.data

/-- The port filter of `get_serial_port` (main.rs lines 167-179): with an
explicit device, match by exact port name; otherwise match USB ports whose
product string (defaulted to the empty string) contains "EiBotBoard"; non-USB
ports never match in auto-detection. -/
def port_filter (device : Option String) (portInfo : SerialPortInfo) : Bool :=
  match device with
  | some d => portInfo.portName == d
  | none =>
    match portInfo.portType with
    | SerialPortType.usbPort product => containsSub (product.getD "") "EiBotBoard"
    | SerialPortType.nonUsbPort => false

/-- The acquisition loop of `get_serial_port` (main.rs lines 181-193) over a
sequence of enumerations (one list of ports per attempt; an enumeration
failure becomes the empty list via `unwrap_or_default`): find the first
matching port of the current enumeration, else sleep one second and
re-enumerate. Returns the matched port together with the number of one-second
sleeps taken before the match; `none` means every supplied enumeration was
matchless and the loop is still going. -/
def findPortLoop (device : Option String) :
    List (List SerialPortInfo) → Option (SerialPortInfo × Nat)
  | [] => none
  | ports :: later =>
    match ports.find? (port_filter device) with
    | some portInfo => some (portInfo, 0)
    | none => (findPortLoop device later).map (fun p => (p.1, p.2 + 1))

/-- Parameters with which a matched port is opened (main.rs lines 195-197):
path, baud rate, read timeout in seconds. -/
structure OpenPortConfig where
  path : String
  baudRate : Nat
  timeoutSecs : Nat
deriving DecidableEq, Repr

/-- Outcome of opening a matched port: opened with its configuration, or a
fatal panic that terminates the process (main.rs line 198). -/
inductive OpenOutcome
  | opened (config : OpenPortConfig)
  | fatal (msg : String)
deriving DecidableEq, Repr

/-- Opening a matched port (main.rs lines 195-198): baud rate 9600, timeout 1
second; failure panics with the port name in the message. `openSucceeds`
models whether the operating system lets the open succeed. -/
def openMatchedPort (portInfo : SerialPortInfo) (openSucceeds : Bool) : OpenOutcome :=
  if openSucceeds then OpenOutcome.opened ⟨portInfo.portName, 9600, 1⟩
  else OpenOutcome.fatal ("Could not create port on " ++ portInfo.portName)

/-- `get_serial_port` (main.rs lines 166-199): run the acquisition loop, then
open the matched port. -/
def get_serial_port (device : Option String) (enumerations : List (List SerialPortInfo))
    (openSucceeds : Bool) : Option OpenOutcome :=
  (findPortLoop device enumerations).map (fun p => openMatchedPort p.1 openSucceeds)

/-- Lock-relevant events of the source, used to model which mutex guards are
live when the blocking serial exchange runs. -/
inductive LockEvent
  | acquireStateLock
  | acquireBufferLock
  | releaseStateLock
  | releaseBufferLock
  | serialRoundTrip (command : String)
deriving DecidableEq, Repr

/-- Event trace of one iteration of the consumer inner loop (main.rs lines
137-146): the guards `state` (line 138) and `buffer` (line 139) are bound at
the top of the loop body and dropped only at its end, so when the iteration
proceeds, the serial round trip of line 145 happens between the acquisitions
and the releases. -/
def dispatchIterationEvents (status : RunningStatus) (buffer : List String) :
    List LockEvent :=
  LockEvent.acquireStateLock :: LockEvent.acquireBufferLock ::
    ((if status ≠ RunningStatus.Running ∨ buffer = [] then []
      else (buffer.take 1).map LockEvent.serialRoundTrip) ++
     [LockEvent.releaseBufferLock, LockEvent.releaseStateLock])

/-- Event trace of one message iteration of `stream` (main.rs lines 55-65):
the buffer guard is a temporary of the `push_back` statement, dropped at its
end; the state guard is a temporary of the `if` condition; no serial I/O. -/
def streamIterationEvents : List LockEvent :=
  [LockEvent.acquireBufferLock, LockEvent.releaseBufferLock,
   LockEvent.acquireStateLock, LockEvent.releaseStateLock]

/-- Event trace of `clear` (main.rs line 72): the buffer guard is a temporary
of the `clear()` statement; no serial I/O. -/
def clearEvents : List LockEvent :=
  [LockEvent.acquireBufferLock, LockEvent.releaseBufferLock]

/-- Event trace of `pause` (main.rs line 78): the state guard is a temporary
of the assignment; no serial I/O. -/
def pauseEvents : List LockEvent :=
  [LockEvent.acquireStateLock, LockEvent.releaseStateLock]

/-- Event trace of `resume` (main.rs lines 84-87): the state guard is a
temporary of the assignment, dropped before the control message is sent; no
serial I/O. -/
def resumeEvents : List LockEvent :=
  [LockEvent.acquireStateLock, LockEvent.releaseStateLock]

/-- Event trace of `get_state` (main.rs lines 93-98): both guards are
acquired by the `join!` and dropped at the end of the handler; no serial
I/O. -/
def getStateEvents : List LockEvent :=
  [LockEvent.acquireBufferLock, LockEvent.acquireStateLock,
   LockEvent.releaseBufferLock, LockEvent.releaseStateLock]

/-- Number of unmatched acquisitions of a lock (given its acquire and release
events) after a sequence of events. -/
def lockDepth (acq rel : LockEvent) (events : List LockEvent) : Nat :=
  events.foldl (fun depth e => if e = acq then depth + 1 else if e = rel then depth - 1 else depth) 0

/-- Whether the run-state lock is held just before event index `i`. -/
def stateLockHeldAt (events : List LockEvent) (i : Nat) : Bool :=
  lockDepth LockEvent.acquireStateLock LockEvent.releaseStateLock (events.take i) != 0

/-- Whether the queue lock is held just before event index `i`. -/
def bufferLockHeldAt (events : List LockEvent) (i : Nat) : Bool :=
  lockDepth LockEvent.acquireBufferLock LockEvent.releaseBufferLock (events.take i) != 0

/-- Event `i` is harmless for lock scopes: if it is a serial round trip, then
neither lock is held while it runs. -/
def serialEventUnlocked (events : List LockEvent) (i : Fin events.length) : Bool :=
  match events.get i with
  | LockEvent.serialRoundTrip _ =>
    !stateLockHeldAt events i.val && !bufferLockHeldAt events i.val
  | _ => true

/-- A trace never performs a serial round trip while either lock is held. -/
def noLockAcrossSerial (events : List LockEvent) : Prop :=
  ∀ i : Fin events.length, serialEventUnlocked events i = true

instance (events : List LockEvent) : Decidable (noLockAcrossSerial events) := by
  unfold noLockAcrossSerial
  infer_instance

lemma invalidCommand_eq_false_iff (c : String) :
    invalidCommand c = false ↔ (c.data ≠ [] ∧ '\r' ∉ c.data ∧ '\n' ∉ c.data) := by
  simp only [invalidCommand, List.isEmpty_iff, Bool.or_eq_false_iff]
  simp [and_assoc]

lemma stream_cons_invalid (st : ServiceState) (c : String) (rest : List String)
    (h : invalidCommand c = true) :
    stream st (c :: rest) = ⟨st, [], Except.error (Status.invalidArgument "Invalid command")⟩ := by
  simp [stream, streamStep, h]

lemma stream_cons_valid (st : ServiceState) (c : String) (rest : List String)
    (h : invalidCommand c = false) :
    stream st (c :: rest) =
      ⟨(stream ⟨st.commandBuffer ++ [c], st.runningStatus⟩ rest).state,
       (if st.runningStatus = RunningStatus.Running then [ControlMessage.CheckBuffer] else [])
         ++ (stream ⟨st.commandBuffer ++ [c], st.runningStatus⟩ rest).tokens,
       (stream ⟨st.commandBuffer ++ [c], st.runningStatus⟩ rest).result⟩ := by
  simp [stream, streamStep, h]

/-- Claim C2: for every input string, submitting it succeeds and appends it to
the tail of the command queue if and only if it is non-empty and contains no
carriage-return and no line-feed character; otherwise the submission fails
with the invalid-command error and the queue (indeed the whole shared state)
is unchanged. -/
theorem submit_validation (st : ServiceState) (c : String) :
    (((stream st [c]).result = Except.ok () ∧
        (stream st [c]).state.commandBuffer = st.commandBuffer ++ [c]) ↔
      (c.data ≠ [] ∧ '\r' ∉ c.data ∧ '\n' ∉ c.data)) ∧
    (¬(c.data ≠ [] ∧ '\r' ∉ c.data ∧ '\n' ∉ c.data) →
      (stream st [c]).result = Except.error (Status.invalidArgument "Invalid command") ∧
      (stream st [c]).state = st) := by
  by_cases hv : invalidCommand c = true
  · have hcond : ¬(c.data ≠ [] ∧ '\r' ∉ c.data ∧ '\n' ∉ c.data) := by
      intro hc
      rw [← invalidCommand_eq_false_iff] at hc
      rw [hv] at hc
      exact Bool.noConfusion hc
    rw [stream_cons_invalid st c [] hv]
    refine ⟨?_, fun _ => ⟨rfl, rfl⟩⟩
    constructor
    · rintro ⟨h1, -⟩
      cases h1
    · intro hc
      exact absurd hc hcond
  · have hv' : invalidCommand c = false := by
      cases h : invalidCommand c
      · rfl
      · exact absurd h hv
    have hcond : c.data ≠ [] ∧ '\r' ∉ c.data ∧ '\n' ∉ c.data :=
      (invalidCommand_eq_false_iff c).mp hv'
    rw [stream_cons_valid st c [] hv']
    refine ⟨?_, fun h => absurd hcond h⟩
    simp [stream, hcond]

/-- Witness for `submit_validation` at the concrete inputs of the spec's test
list: submitting a string with a carriage return fails and leaves the state
unchanged. -/
theorem submit_validation_witness :
    (stream ⟨[], RunningStatus.Running⟩ ["a\r"]).result
        = Except.error (Status.invalidArgument "Invalid command") ∧
      (stream ⟨[], RunningStatus.Running⟩ ["a\r"]).state = ⟨[], RunningStatus.Running⟩ :=
  (submit_validation ⟨[], RunningStatus.Running⟩ "a\r").2 (by decide)

lemma checkBuffer_break (status : RunningStatus) (obs : List RunningStatus)
    (buffer : List String) (h : status ≠ RunningStatus.Running ∨ buffer = []) :
    checkBuffer (status :: obs) buffer = ([], buffer) := by
  simp [checkBuffer, h]

lemma checkBuffer_pop (obs : List RunningStatus) (c : String) (rest : List String) :
    checkBuffer (RunningStatus.Running :: obs) (c :: rest)
      = (c :: (checkBuffer obs rest).1, (checkBuffer obs rest).2) := by
  simp [checkBuffer]

lemma checkBuffer_append_eq (obs : List RunningStatus) :
    ∀ buffer : List String,
      (checkBuffer obs buffer).1 ++ (checkBuffer obs buffer).2 = buffer := by
  induction obs with
  | nil => intro buffer; simp [checkBuffer]
  | cons status obs ih =>
    intro buffer
    by_cases h : status ≠ RunningStatus.Running ∨ buffer = []
    · simp [checkBuffer, h]
    · simp only [checkBuffer, if_neg h]
      rw [List.append_assoc, ih buffer.tail, ← List.drop_one]
      exact List.take_append_drop 1 buffer

lemma checkBuffer_pause_after (obs : List RunningStatus) :
    ∀ (n : Nat) (buffer : List String), n ≤ buffer.length →
      checkBuffer (List.replicate n RunningStatus.Running
          ++ RunningStatus.Paused :: obs) buffer
        = (buffer.take n, buffer.drop n) := by
  intro n
  induction n with
  | zero => intro buffer _; simp [checkBuffer]
  | succ n ih =>
    intro buffer h
    cases buffer with
    | nil => simp at h
    | cons c rest =>
      rw [List.replicate_succ]
      simp only [List.cons_append, checkBuffer]
      rw [if_neg (by simp)]
      have hr : n ≤ rest.length := by
        simpa using Nat.le_of_succ_le_succ h
      simp [ih rest hr]

lemma checkBuffer_drain :
    ∀ buffer : List String,
      checkBuffer (List.replicate (buffer.length + 1) RunningStatus.Running) buffer
        = (buffer, []) := by
  intro buffer
  induction buffer with
  | nil => simp [checkBuffer]
  | cons c rest ih =>
    have h1 : (c :: rest).length + 1 = rest.length + 1 + 1 := by simp
    rw [h1, List.replicate_succ, checkBuffer_pop, ih]

/-- Claim C4: each iteration of the consumer's inner loop first reads the
run-state and the queue; it exits when the state is not `Running` or the queue
is empty, and otherwise pops exactly the head command, performs the serial
exchange for it, and re-checks. Consequently the commands sent followed by the
remaining buffer reconstitute the original buffer, and pausing after `n`
successful iterations leaves exactly the commands behind the first `n` still
queued. -/
theorem dispatch_inner_loop :
    (∀ (status : RunningStatus) (obs : List RunningStatus) (buffer : List String),
      status ≠ RunningStatus.Running ∨ buffer = [] →
        checkBuffer (status :: obs) buffer = ([], buffer)) ∧
    (∀ (obs : List RunningStatus) (c : String) (rest : List String),
      checkBuffer (RunningStatus.Running :: obs) (c :: rest)
        = (c :: (checkBuffer obs rest).1, (checkBuffer obs rest).2)) ∧
    (∀ (obs : List RunningStatus) (buffer : List String),
      (checkBuffer obs buffer).1 ++ (checkBuffer obs buffer).2 = buffer) ∧
    (∀ (n : Nat) (obs : List RunningStatus) (buffer : List String),
      n ≤ buffer.length →
        checkBuffer (List.replicate n RunningStatus.Running
            ++ RunningStatus.Paused :: obs) buffer
          = (buffer.take n, buffer.drop n)) := by
  refine ⟨?_, ?_, ?_, ?_⟩
  · intro status obs buffer h
    simp [checkBuffer, h]
  · intro obs c rest
    simp [checkBuffer]
  · intro obs buffer
    exact checkBuffer_append_eq obs buffer
  · intro n obs buffer h
    exact checkBuffer_pause_after obs n buffer h

/-- Witness for `dispatch_inner_loop`: a paused observation leaves a singleton
queue untouched, and one running observation followed by a paused one pops
exactly the head of a two-element queue. -/
theorem dispatch_inner_loop_witness :
    checkBuffer [RunningStatus.Paused] ["a"] = ([], ["a"]) ∧
    checkBuffer (List.replicate 1 RunningStatus.Running
        ++ RunningStatus.Paused :: []) ["a", "b"] = (["a"], ["b"]) :=
  ⟨dispatch_inner_loop.1 RunningStatus.Paused [] ["a"] (Or.inl (by decide)),
   dispatch_inner_loop.2.2.2 1 [] ["a", "b"] (by decide)⟩

lemma stream_error_aux (bad : String) (rest : List String)
    (hbad : invalidCommand bad = true) :
    ∀ (good : List String) (st : ServiceState),
      (∀ c ∈ good, invalidCommand c = false) →
      (stream st (good ++ bad :: rest)).result
          = Except.error (Status.invalidArgument "Invalid command") ∧
      (stream st (good ++ bad :: rest)).state.commandBuffer = st.commandBuffer ++ good ∧
      (stream st (good ++ bad :: rest)).state.runningStatus = st.runningStatus := by
  intro good
  induction good with
  | nil =>
    intro st _
    rw [List.nil_append, stream_cons_invalid st bad rest hbad]
    simp
  | cons g gs ih =>
    intro st hgood
    rw [List.cons_append, stream_cons_valid st g (gs ++ bad :: rest)
      (hgood g (List.mem_cons_self g gs))]
    have := ih ⟨st.commandBuffer ++ [g], st.runningStatus⟩
      (fun c hc => hgood c (List.mem_cons_of_mem g hc))
    simpa [List.append_assoc] using this

/-- Claim C10: when one message of a streaming call is invalid, the call
terminates with the invalid-command error and no later message of the stream
is enqueued, but the valid messages before it remain in the queue (the state
keeps them appended in order, with the running status untouched) and a full
drain of the resulting queue still dispatches all of them. -/
theorem stream_error_mid_stream (st : ServiceState) (good : List String) (bad : String)
    (rest : List String) (hgood : ∀ c ∈ good, invalidCommand c = false)
    (hbad : invalidCommand bad = true) :
    (stream st (good ++ bad :: rest)).result
        = Except.error (Status.invalidArgument "Invalid command") ∧
    (stream st (good ++ bad :: rest)).state.commandBuffer = st.commandBuffer ++ good ∧
    (stream st (good ++ bad :: rest)).state.runningStatus = st.runningStatus ∧
    checkBuffer (List.replicate ((st.commandBuffer ++ good).length + 1) RunningStatus.Running)
        (st.commandBuffer ++ good)
      = (st.commandBuffer ++ good, []) := by
  obtain ⟨h1, h2, h3⟩ := stream_error_aux bad rest hbad good st hgood
  exact ⟨h1, h2, h3, checkBuffer_drain (st.commandBuffer ++ good)⟩

/-- Witness for `stream_error_mid_stream`: a stream of a valid message, then
an empty (invalid) one, then another message fails with the invalid-command
error, keeps exactly the first message queued, and a drain dispatches it. -/
theorem stream_error_mid_stream_witness :
    (stream ⟨[], RunningStatus.Running⟩ (["G1"] ++ "" :: ["R1"])).result
        = Except.error (Status.invalidArgument "Invalid command") ∧
    (stream ⟨[], RunningStatus.Running⟩ (["G1"] ++ "" :: ["R1"])).state.commandBuffer
        = ([] : List String) ++ ["G1"] ∧
    (stream ⟨[], RunningStatus.Running⟩ (["G1"] ++ "" :: ["R1"])).state.runningStatus
        = RunningStatus.Running ∧
    checkBuffer (List.replicate ((([] : List String) ++ ["G1"]).length + 1)
        RunningStatus.Running) (([] : List String) ++ ["G1"])
      = (([] : List String) ++ ["G1"], []) :=
  stream_error_mid_stream ⟨[], RunningStatus.Running⟩ ["G1"] "" ["R1"]
    (by decide) (by decide)

lemma runOps_cons (s : SysState) (op : Op) (rest : List Op) :
    runOps s (op :: rest) = runOps (stepOp s op) rest := rfl

lemma runOps_no_clear (ops : List Op) :
    ∀ s : SysState, Op.clearOp ∉ ops →
      ∃ t : List String,
        (runOps s ops).enqueued = s.enqueued ++ t ∧
        (runOps s ops).sent ++ (runOps s ops).commandBuffer
          = s.sent ++ s.commandBuffer ++ t := by
  induction ops with
  | nil =>
    intro s _
    exact ⟨[], by simp [runOps], by simp [runOps]⟩
  | cons op rest ih =>
    intro s h
    have hrest : Op.clearOp ∉ rest := fun hm => h (List.mem_cons_of_mem op hm)
    have hop : op ≠ Op.clearOp := fun he => h (he ▸ List.mem_cons_self op rest)
    obtain ⟨t, henq, hsb⟩ := ih (stepOp s op) hrest
    rw [runOps_cons]
    cases op with
    | submit c =>
      by_cases hc : invalidCommand c = true
      · refine ⟨t, ?_, ?_⟩
        · rw [henq]; simp [stepOp, hc]
        · rw [hsb]; simp [stepOp, hc]
      · have hc' : invalidCommand c = false := by
          cases hcc : invalidCommand c
          · rfl
          · exact absurd hcc hc
        refine ⟨c :: t, ?_, ?_⟩
        · rw [henq]; simp [stepOp, hc']
        · rw [hsb]; simp [stepOp, hc']
    | dispatchOne =>
      by_cases hb : s.runningStatus ≠ RunningStatus.Running ∨ s.commandBuffer = []
      · refine ⟨t, ?_, ?_⟩
        · rw [henq]; simp [stepOp, hb]
        · rw [hsb]; simp [stepOp, hb]
      · have h12 := not_or.mp hb
        have hrun := not_not.mp h12.1
        obtain ⟨c, cb, hbuf⟩ := List.exists_cons_of_ne_nil h12.2
        refine ⟨t, ?_, ?_⟩
        · rw [henq]; simp [stepOp, hbuf, hrun]
        · rw [hsb]
          simp [stepOp, hbuf, hrun]
    | clearOp => exact absurd rfl hop
    | pauseOp =>
      exact ⟨t, by rw [henq]; simp [stepOp], by rw [hsb]; simp [stepOp]⟩
    | resumeOp =>
      exact ⟨t, by rw [henq]; simp [stepOp], by rw [hsb]; simp [stepOp]⟩

lemma stepOp_sublist (s : SysState) (op : Op)
    (h : List.Sublist (s.sent ++ s.commandBuffer) s.enqueued) :
    List.Sublist ((stepOp s op).sent ++ (stepOp s op).commandBuffer)
      (stepOp s op).enqueued := by
  cases op with
  | submit c =>
    by_cases hc : invalidCommand c = true
    · simpa [stepOp, hc] using h
    · have hc' : invalidCommand c = false := by
        cases hcc : invalidCommand c
        · rfl
        · exact absurd hcc hc
      simp only [stepOp, hc', Bool.false_eq_true, if_false]
      rw [← List.append_assoc]
      exact h.append (List.Sublist.refl [c])
  | dispatchOne =>
    by_cases hb : s.runningStatus ≠ RunningStatus.Running ∨ s.commandBuffer = []
    · simpa [stepOp, hb] using h
    · have h12 := not_or.mp hb
      have hrun := not_not.mp h12.1
      obtain ⟨c, cb, hbuf⟩ := List.exists_cons_of_ne_nil h12.2
      rw [hbuf] at h
      simp only [stepOp, hbuf, hrun]
      simpa [List.append_assoc] using h
  | clearOp =>
    simp only [stepOp, List.append_nil]
    exact (List.sublist_append_left s.sent s.commandBuffer).trans h
  | pauseOp => simpa [stepOp] using h
  | resumeOp => simpa [stepOp] using h

lemma runOps_sublist (ops : List Op) :
    ∀ s : SysState, List.Sublist (s.sent ++ s.commandBuffer) s.enqueued →
      List.Sublist ((runOps s ops).sent ++ (runOps s ops).commandBuffer)
        (runOps s ops).enqueued := by
  induction ops with
  | nil => intro s h; exact h
  | cons op rest ih =>
    intro s h
    rw [runOps_cons]
    exact ih (stepOp s op) (stepOp_sublist s op h)

/-- Claim C1: commands are dispatched in exactly the order they were
successfully enqueued. In every reachable state the sequence of commands
handed to the serial exchange, followed by the current queue contents, is a
sublist (order-preserving) of the sequence of enqueued commands; and in runs
without `clear`, it is exactly that sequence - FIFO with no reordering and no
priority, over arbitrary interleavings of producers and the dispatcher. -/
theorem fifo_order (ops : List Op) :
    List.Sublist ((runOps initState ops).sent ++ (runOps initState ops).commandBuffer)
      (runOps initState ops).enqueued ∧
    (Op.clearOp ∉ ops →
      (runOps initState ops).sent ++ (runOps initState ops).commandBuffer
        = (runOps initState ops).enqueued) := by
  constructor
  · exact runOps_sublist ops initState (by simp [initState])
  · intro h
    obtain ⟨t, henq, hsb⟩ := runOps_no_clear ops initState h
    rw [hsb, henq]
    simp [initState]

/-- Witness for `fifo_order`: two submissions and one dispatch, queued and
sent in submission order. -/
theorem fifo_order_witness :
    (runOps initState [Op.submit "M1", Op.submit "M2", Op.dispatchOne]).sent ++
        (runOps initState [Op.submit "M1", Op.submit "M2", Op.dispatchOne]).commandBuffer
      = (runOps initState [Op.submit "M1", Op.submit "M2", Op.dispatchOne]).enqueued :=
  (fifo_order [Op.submit "M1", Op.submit "M2", Op.dispatchOne]).2 (by decide)

lemma stepOp_len (s : SysState) (op : Op)
    (h : s.commandBuffer.length + s.sent.length + s.cleared = s.enqueued.length) :
    (stepOp s op).commandBuffer.length + (stepOp s op).sent.length + (stepOp s op).cleared
      = (stepOp s op).enqueued.length := by
  cases op with
  | submit c =>
    by_cases hc : invalidCommand c = true
    · simpa [stepOp, hc] using h
    · have hc' : invalidCommand c = false := by
        cases hcc : invalidCommand c
        · rfl
        · exact absurd hcc hc
      simp only [stepOp, hc', Bool.false_eq_true, if_false]
      simp only [List.length_append, List.length_cons, List.length_nil]
      omega
  | dispatchOne =>
    by_cases hb : s.runningStatus ≠ RunningStatus.Running ∨ s.commandBuffer = []
    · simpa [stepOp, hb] using h
    · have h12 := not_or.mp hb
      have hrun := not_not.mp h12.1
      obtain ⟨c, cb, hbuf⟩ := List.exists_cons_of_ne_nil h12.2
      rw [hbuf] at h
      simp only [stepOp, hbuf, hrun, List.length_append, List.length_cons] at h ⊢
      simp at h ⊢
      omega
  | clearOp =>
    simp only [stepOp, List.length_nil]
    omega
  | pauseOp => simpa [stepOp] using h
  | resumeOp => simpa [stepOp] using h

lemma runOps_len (ops : List Op) :
    ∀ s : SysState,
      s.commandBuffer.length + s.sent.length + s.cleared = s.enqueued.length →
      (runOps s ops).commandBuffer.length + (runOps s ops).sent.length
          + (runOps s ops).cleared = (runOps s ops).enqueued.length := by
  induction ops with
  | nil => intro s h; exact h
  | cons op rest ih =>
    intro s h
    rw [runOps_cons]
    exact ih (stepOp s op) (stepOp_len s op h)

lemma stepOp_status (s : SysState) (op : Op) :
    (stepOp s op).runningStatus = statusUpdate s.runningStatus op := by
  cases op with
  | submit c =>
    simp only [stepOp, statusUpdate]
    split <;> rfl
  | dispatchOne =>
    by_cases hb : s.runningStatus ≠ RunningStatus.Running ∨ s.commandBuffer = []
    · simp [stepOp, hb, statusUpdate]
    · have h12 := not_or.mp hb
      have hrun := not_not.mp h12.1
      obtain ⟨c, cb, hbuf⟩ := List.exists_cons_of_ne_nil h12.2
      simp [stepOp, hbuf, hrun, statusUpdate]
  | clearOp => rfl
  | pauseOp => rfl
  | resumeOp => rfl

lemma runOps_status (ops : List Op) :
    ∀ s : SysState,
      (runOps s ops).runningStatus = List.foldl statusUpdate s.runningStatus ops := by
  induction ops with
  | nil => intro s; rfl
  | cons op rest ih =>
    intro s
    rw [runOps_cons, ih (stepOp s op), stepOp_status]
    rfl

/-- Claim C6: in every reachable state, `get_state` reports a queue length
equal to the number of successfully enqueued commands minus the number popped
for dispatch minus the number dropped by `clear` calls, and a running status
equal to the effect of the most recent `pause` / `resume` (`Running` if there
was none). -/
theorem get_state_reports (ops : List Op) :
    (get_state (runOps initState ops).toService).bufferLength
        = (runOps initState ops).enqueued.length - (runOps initState ops).sent.length
            - (runOps initState ops).cleared ∧
    (get_state (runOps initState ops).toService).runningStatus = lastRunStatus ops := by
  constructor
  · have h := runOps_len ops initState (by simp [initState])
    simp only [get_state, SysState.toService]
    omega
  · simp only [get_state, SysState.toService, lastRunStatus]
    exact runOps_status ops initState

/-- Claim C7: `clear` empties the queue in every run-state and leaves the
run-state unchanged; and after a `clear`, the commands handed to the serial
exchange are exactly the ones already popped before the `clear` (an in-flight
command still completes) followed only by commands enqueued after the `clear`
- no command queued at the time of the `clear` is sent afterward. -/
theorem clear_semantics :
    (∀ (buffer : List String) (rs : RunningStatus), clear ⟨buffer, rs⟩ = ⟨[], rs⟩) ∧
    (∀ ops1 ops2 : List Op, Op.clearOp ∉ ops2 →
      (runOps (stepOp (runOps initState ops1) Op.clearOp) ops2).sent ++
          (runOps (stepOp (runOps initState ops1) Op.clearOp) ops2).commandBuffer
        = (runOps initState ops1).sent ++
          ((runOps (stepOp (runOps initState ops1) Op.clearOp) ops2).enqueued).drop
            (runOps initState ops1).enqueued.length) := by
  constructor
  · intro buffer rs
    rfl
  · intro ops1 ops2 h
    obtain ⟨t, henq, hsb⟩ := runOps_no_clear ops2 (stepOp (runOps initState ops1) Op.clearOp) h
    rw [hsb, henq]
    simp only [stepOp, List.append_nil]
    rw [List.drop_left]

/-- Witness for `clear_semantics`: submit "A", clear, submit "B", dispatch -
afterwards the sent-plus-queued sequence is exactly the post-clear enqueues. -/
theorem clear_semantics_witness :
    (runOps (stepOp (runOps initState [Op.submit "A"]) Op.clearOp)
          [Op.submit "B", Op.dispatchOne]).sent ++
        (runOps (stepOp (runOps initState [Op.submit "A"]) Op.clearOp)
          [Op.submit "B", Op.dispatchOne]).commandBuffer
      = (runOps initState [Op.submit "A"]).sent ++
        ((runOps (stepOp (runOps initState [Op.submit "A"]) Op.clearOp)
          [Op.submit "B", Op.dispatchOne]).enqueued).drop
          (runOps initState [Op.submit "A"]).enqueued.length :=
  clear_semantics.2 [Op.submit "A"] [Op.submit "B", Op.dispatchOne] (by decide)

/-- Claim C5: `pause` sets the run-state to `Paused` and sends no wake token;
`resume` sets it to `Running` and sends exactly one wake token; a successful
submit sends a wake token if and only if the run-state observed after the
enqueue is `Running`; and no service call that moves the run-state to
`Running` leaves the dispatcher unwoken (it always sends a token). -/
theorem wake_token_protocol :
    (∀ st : ServiceState,
      (pause st).1.runningStatus = RunningStatus.Paused ∧ (pause st).2 = []) ∧
    (∀ st : ServiceState,
      (resume st).1.runningStatus = RunningStatus.Running ∧
        (resume st).2 = [ControlMessage.CheckBuffer]) ∧
    (∀ (st : ServiceState) (c : String), invalidCommand c = false →
      (stream st [c]).tokens =
        if (stream st [c]).state.runningStatus = RunningStatus.Running
        then [ControlMessage.CheckBuffer] else []) ∧
    (∀ (st : ServiceState) (op : ServiceOp),
      st.runningStatus ≠ RunningStatus.Running →
      (serviceStep st op).1.runningStatus = RunningStatus.Running →
      (serviceStep st op).2 ≠ []) := by
  refine ⟨fun st => ⟨rfl, rfl⟩, fun st => ⟨rfl, rfl⟩, ?_, ?_⟩
  · intro st c h
    rw [stream_cons_valid st c [] h]
    simp [stream]
  · intro st op h1 h2
    cases op with
    | streamMsg c =>
      by_cases hc : invalidCommand c = true
      · simp only [serviceStep, streamStep, hc, if_true] at h2
        exact absurd h2 h1
      · have hc' : invalidCommand c = false := by
          cases hcc : invalidCommand c
          · rfl
          · exact absurd hcc hc
        simp only [serviceStep, streamStep, hc', Bool.false_eq_true, if_false] at h2
        exact absurd h2 h1
    | clearCall => exact absurd h2 h1
    | pauseCall => exact absurd h2 (by simp [serviceStep, pause])
    | resumeCall => simp [serviceStep, resume]

/-- Witness for `wake_token_protocol`: a submit while paused sends no token
(the token list matches the paused state), and a `resume` from the paused
state sends a token. -/
theorem wake_token_protocol_witness :
    ((stream ⟨[], RunningStatus.Paused⟩ ["SP,1"]).tokens =
      if (stream ⟨[], RunningStatus.Paused⟩ ["SP,1"]).state.runningStatus
          = RunningStatus.Running
      then [ControlMessage.CheckBuffer] else []) ∧
    (serviceStep ⟨[], RunningStatus.Paused⟩ ServiceOp.resumeCall).2 ≠ [] :=
  ⟨wake_token_protocol.2.2.1 ⟨[], RunningStatus.Paused⟩ "SP,1" (by decide),
   wake_token_protocol.2.2.2 ⟨[], RunningStatus.Paused⟩ ServiceOp.resumeCall
     (by decide) (by decide)⟩

lemma firstLine_spec (response : String) (rest : List ReadAttempt) :
    ∀ errs : List ReadAttempt, (∀ e ∈ errs, e = Except.error ()) →
      firstLine (errs ++ Except.ok response :: rest)
        = some (response, errs.length + 1) := by
  intro errs
  induction errs with
  | nil => intro _; rfl
  | cons e es ih =>
    intro h
    have he : e = Except.error () := h e (List.mem_cons_self e es)
    subst he
    simp only [List.cons_append, firstLine, List.append_eq]
    rw [ih (fun x hx => h x (List.mem_cons_of_mem _ hx))]
    simp

/-- Claim C8: the serial exchange writes exactly the characters of the command
followed by a single carriage return, then reads line after line, retrying
past failed (timed-out) reads, until the first complete line, which it returns
as the response; it consumes exactly the failed attempts plus that one line
(the result does not depend on anything after the first complete line, so it
returns before reading a second one). -/
theorem serial_exchange (command : String) (errs : List ReadAttempt) (response : String)
    (rest : List ReadAttempt) (herrs : ∀ e ∈ errs, e = Except.error ()) :
    send_to_serial_and_wait_for_ok command (errs ++ Except.ok response :: rest)
      = some ⟨command.data ++ ['\r'], errs.length + 1, response⟩ := by
  simp only [send_to_serial_and_wait_for_ok]
  rw [firstLine_spec response rest errs herrs]
  simp [String.data_append]

/-- Witness for `serial_exchange`: one timed-out read, then the line "OK"; a
later line is never consumed. -/
theorem serial_exchange_witness :
    send_to_serial_and_wait_for_ok "SP,1"
        (([Except.error ()] : List ReadAttempt) ++ Except.ok "OK" :: [Except.ok "IGNORED"])
      = some ⟨"SP,1".data ++ ['\r'], 2, "OK"⟩ :=
  serial_exchange "SP,1" [Except.error ()] "OK" [Except.ok "IGNORED"] (by decide)

lemma findPortLoop_all_none (d : Option String) :
    ∀ enumerations : List (List SerialPortInfo),
      (∀ ports ∈ enumerations, ports.find? (port_filter d) = none) →
      findPortLoop d enumerations = none := by
  intro enumerations
  induction enumerations with
  | nil => intro _; rfl
  | cons ports later ih =>
    intro h
    have hp : ports.find? (port_filter d) = none := h ports (List.mem_cons_self _ _)
    simp only [findPortLoop, hp]
    rw [ih (fun x hx => h x (List.mem_cons_of_mem _ hx))]
    rfl

/-- Claim C9: with an explicit selector a device matches exactly when its port
name equals the selector; without one it matches exactly when it is a USB port
whose product string contains "EiBotBoard"; a matchless enumeration causes one
one-second sleep and a re-enumeration, and any number of matchless
enumerations leaves the loop still searching rather than failing; a match in
the current enumeration is taken with no further sleep; and a matched device
is opened at baud rate 9600 with a one-second read timeout, while failure to
open it is fatal. -/
theorem device_acquisition :
    (∀ (d : String) (p : SerialPortInfo),
      port_filter (some d) p = true ↔ p.portName = d) ∧
    (∀ p : SerialPortInfo,
      port_filter none p = true ↔
        ∃ product : Option String, p.portType = SerialPortType.usbPort product ∧
          containsSub (product.getD "") "EiBotBoard" = true) ∧
    (∀ (d : Option String) (ports : List SerialPortInfo)
        (later : List (List SerialPortInfo)) (p : SerialPortInfo),
      ports.find? (port_filter d) = some p →
        findPortLoop d (ports :: later) = some (p, 0)) ∧
    (∀ (d : Option String) (ports : List SerialPortInfo)
        (later : List (List SerialPortInfo)),
      ports.find? (port_filter d) = none →
        findPortLoop d (ports :: later)
          = (findPortLoop d later).map (fun q => (q.1, q.2 + 1))) ∧
    (∀ (d : Option String) (enumerations : List (List SerialPortInfo)),
      (∀ ports ∈ enumerations, ports.find? (port_filter d) = none) →
        findPortLoop d enumerations = none) ∧
    (∀ p : SerialPortInfo,
      openMatchedPort p true = OpenOutcome.opened ⟨p.portName, 9600, 1⟩ ∧
      openMatchedPort p false
        = OpenOutcome.fatal ("Could not create port on " ++ p.portName)) := by
  refine ⟨?_, ?_, ?_, ?_, ?_, fun p => ⟨rfl, rfl⟩⟩
  · intro d p
    simp [port_filter]
  · intro p
    cases hp : p.portType with
    | usbPort product =>
      simp only [port_filter, hp]
      constructor
      · intro h
        exact ⟨product, rfl, h⟩
      · rintro ⟨q, hq, h⟩
        cases hq
        exact h
    | nonUsbPort =>
      simp [port_filter, hp]
  · intro d ports later p h
    simp [findPortLoop, h]
  · intro d ports later h
    simp [findPortLoop, h]
  · intro d enumerations h
    exact findPortLoop_all_none d enumerations h

/-- Witness for `device_acquisition`: an auto-detected EiBotBoard USB port is
taken from the first enumeration with no sleep; an explicit selector that
matches nothing leaves the loop with no result after its enumerations. -/
theorem device_acquisition_witness :
    findPortLoop none
        [[⟨"/dev/ttyUSB0", SerialPortType.usbPort (some "EiBotBoard v2")⟩]]
      = some (⟨"/dev/ttyUSB0", SerialPortType.usbPort (some "EiBotBoard v2")⟩, 0) ∧
    findPortLoop (some "/dev/ttyACM9") [[⟨"/dev/ttyS0", SerialPortType.nonUsbPort⟩]]
      = none :=
  ⟨device_acquisition.2.2.1 none
      [⟨"/dev/ttyUSB0", SerialPortType.usbPort (some "EiBotBoard v2")⟩] []
      ⟨"/dev/ttyUSB0", SerialPortType.usbPort (some "EiBotBoard v2")⟩ (by decide),
   device_acquisition.2.2.2.2.1 (some "/dev/ttyACM9")
      [[⟨"/dev/ttyS0", SerialPortType.nonUsbPort⟩]] (by decide)⟩

/-- Claim C3, counterexample: in a consumer inner-loop iteration that pops a
command (state `Running`, queue `["SP,1"]`), the serial round trip happens
while a lock is held - the trace does not satisfy the no-lock-across-serial
property the claim asserts for the Dispatch Loop. -/
theorem dispatch_lock_scope_counterexample :
    ¬ noLockAcrossSerial (dispatchIterationEvents RunningStatus.Running ["SP,1"]) := by
  decide

/-- Claim C3, amended: the intake handlers (a `stream` iteration, `clear`,
`pause`, `resume`, `get_state`) perform no serial I/O under any lock - their
traces trivially satisfy the no-lock-across-serial property - but the Dispatch
Loop holds BOTH the run-state lock and the queue lock across the serial round
trip: in every popping iteration the serial event (index 2 of the trace)
occurs while both locks are held, so a blocking serial exchange can prevent a
concurrent intake operation from acquiring either lock. -/
theorem lock_scope_amended :
    noLockAcrossSerial streamIterationEvents ∧
    noLockAcrossSerial clearEvents ∧
    noLockAcrossSerial pauseEvents ∧
    noLockAcrossSerial resumeEvents ∧
    noLockAcrossSerial getStateEvents ∧
    (∀ (c : String) (rest : List String),
      (dispatchIterationEvents RunningStatus.Running (c :: rest)).get? 2
          = some (LockEvent.serialRoundTrip c) ∧
      stateLockHeldAt (dispatchIterationEvents RunningStatus.Running (c :: rest)) 2
          = true ∧
      bufferLockHeldAt (dispatchIterationEvents RunningStatus.Running (c :: rest)) 2
          = true) := by
  refine ⟨by decide, by decide, by decide, by decide, by decide, ?_⟩
  intro c rest
  refine ⟨?_, ?_, ?_⟩
  · simp [dispatchIterationEvents]
  · simp [stateLockHeldAt, lockDepth, dispatchIterationEvents]
  · simp [bufferLockHeldAt, lockDepth, dispatchIterationEvents]

end Axidraw
